import Mathlib

/-!
# Verification of the image_resize transform cache and GIF pipeline

Shallow embedding of the subsystems of `soulstealerio/image_resize` that the
frozen claims are about:

* the thumbnail LRU cache (`src/pages/api/thumbnail.ts`): byte-budgeted,
  TTL-bounded, configured with `updateAgeOnGet: true`;
* the cache-key construction `getCacheKey`;
* URL-based format auto-detection `detectFormatFromUrl` and query-parameter
  parsing of the thumbnail endpoint;
* the GIF endpoint (`src/pages/api/create-filtered-gif.ts`): form parsing and
  frameDelay validation, the 10% dimension-tolerance audit, crop normalization,
  the encoded-delay floor, temp-file cleanup, and the error-to-status mapping.

JavaScript numbers that only ever hold integers are modelled as `Nat`/`Int`;
the percentage arithmetic of the tolerance check is modelled in `ℚ` (the
integer inputs are far below the range where IEEE doubles could diverge from
exact rationals on these comparisons).
-/

/-! ## Thumbnail cache (src/pages/api/thumbnail.ts, lines 49-66)

The store itself is the npm `lru-cache` package (not part of this repository);
its behaviour is modelled from the spec, §4.1 CacheStore contract, with the
configuration taken from the source: `maxSize = CACHE_MAX_SIZE_BYTES`,
`sizeCalculation = entry.buffer.length`, `ttl = CACHE_TTL_MS`,
`updateAgeOnGet: true`. -/

/-- `CACHE_MAX_SIZE_MB` from thumbnail.ts line 50. -/
def CACHE_MAX_SIZE_MB : Nat := 300

/-- `CACHE_MAX_SIZE_BYTES` from thumbnail.ts line 51. -/
def CACHE_MAX_SIZE_BYTES : Nat := CACHE_MAX_SIZE_MB * 1024 * 1024

/-- `CACHE_TTL_MS` from thumbnail.ts line 52: 24 hours in milliseconds. -/
def CACHE_TTL_MS : Nat := 24 * 60 * 60 * 1000

/-- A resident cache entry: its key, its `sizeBytes` (the payload length used
by `sizeCalculation`), and `start`, the timestamp the TTL is measured from
(insertion time, refreshed on each read hit because the source sets
`updateAgeOnGet: true`). -/
structure CacheEntryM where
  key : String
  size : Nat
  start : Nat
deriving DecidableEq, Repr

/-- Total resident bytes of a list of entries. -/
def totalSize (l : List CacheEntryM) : Nat := (l.map (·.size)).sum

/-- Look up the entry for a key. The entry list is kept in recency order,
most recently used first. -/
def findEntry (k : String) (l : List CacheEntryM) : Option CacheEntryM :=
  l.find? (fun e => e.key == k)

/-- Remove the entry for a key (if resident). -/
def eraseKey (k : String) (l : List CacheEntryM) : List CacheEntryM :=
  l.eraseP (fun e => e.key == k)

/-- Modelled from the spec, §4.1: "if inserting would exceed the byte budget,
evict least-recently-used live entries ... until the entry fits". The input
list here is least-recently-used first; entries are dropped from the front
until the new entry fits in `CACHE_MAX_SIZE_BYTES`. -/
def evictFits (sz : Nat) : List CacheEntryM → List CacheEntryM
  | [] => []
  | e :: rest =>
    if totalSize (e :: rest) + sz ≤ CACHE_MAX_SIZE_BYTES then e :: rest
    else evictFits sz rest

/-- Modelled from the spec, §4.1 `put`: inserts/replaces; evicts
least-recently-used entries until the new entry fits, or rejects the put if
the single entry exceeds the total budget. The entry list is most recently
used first, so eviction works on the reversed list. -/
def cachePut (t : Nat) (k : String) (sz : Nat) (l : List CacheEntryM) : List CacheEntryM :=
  if CACHE_MAX_SIZE_BYTES < sz then l
  else ⟨k, sz, t⟩ :: (evictFits sz ((eraseKey k l).reverse)).reverse

/-- Modelled from the spec, §4.1 `get` and §3: an entry inserted (or last
refreshed) at time `start` is unreachable at any time `≥ start + TTL`; an
expired entry is dropped and counts as a miss. A hit moves the entry to the
front (recency) and, because the source configures `updateAgeOnGet: true`
("Refresh TTL on access", thumbnail.ts line 59), resets its `start` to the
access time. Returns the served entry (if any) and the new store state. -/
def cacheGet (t : Nat) (k : String) (l : List CacheEntryM) :
    Option CacheEntryM × List CacheEntryM :=
  match findEntry k l with
  | none => (none, l)
  | some e =>
    if e.start + CACHE_TTL_MS ≤ t then (none, eraseKey k l)
    else (some ⟨e.key, e.size, t⟩, ⟨e.key, e.size, t⟩ :: eraseKey k l)

/-- One observable cache operation, with the real-time clock value at which it
happens. -/
inductive CacheOp where
  | put (t : Nat) (k : String) (sz : Nat)
  | get (t : Nat) (k : String)

/-- Apply one operation to the store state. -/
def applyOp (l : List CacheEntryM) : CacheOp → List CacheEntryM
  | .put t k sz => cachePut t k sz l
  | .get t k => (cacheGet t k l).2

/-- Run a sequence of operations from the empty store. -/
def runOps (ops : List CacheOp) : List CacheEntryM :=
  ops.foldl applyOp []

/-- Sum of `sizeBytes` over the live (non-expired) entries at time `now`. -/
def liveSize (now : Nat) (l : List CacheEntryM) : Nat :=
  totalSize (l.filter (fun e => now < e.start + CACHE_TTL_MS))

/-- Does this operation address key `k`? -/
def opTouches (k : String) : CacheOp → Bool
  | .put _ k' _ => k' == k
  | .get _ k' => k' == k

/-! ## Cache key construction (thumbnail.ts, lines 76-84) -/

/-- Decimal rendering of a natural number, as JavaScript template-literal
interpolation produces for a nonnegative integer. -/
def natStr (n : Nat) : String :=
  if n = 0 then "0" else ⟨((Nat.digits 10 n).map Nat.digitChar).reverse⟩

/-- Numeric value of a decimal digit character. -/
def charDigitVal (c : Char) : Nat := c.toNat - 48

/-- Decode a decimal string back to a natural number (left inverse of
`natStr`, used to prove injectivity). -/
def natOfStr (s : String) : Nat :=
  Nat.ofDigits 10 ((s.data.map charDigitVal).reverse)

/-- `getCacheKey` from thumbnail.ts lines 76-84:
the template literal `url|WIDTHxHEIGHT|format|qQUALITY`. -/
def getCacheKey (url : String) (width height : Nat) (format : String) (quality : Nat) :
    String :=
  url ++ "|" ++ natStr width ++ "x" ++ natStr height ++ "|" ++ format ++ "|q" ++ natStr quality

/-! ## Format auto-detection (thumbnail.ts, lines 137-146) -/

/-- JavaScript `String.prototype.includes`: substring containment. -/
def jsIncludes (s pat : String) : Bool := decide (pat.data <:+: s.data)

/-- JavaScript `String.prototype.toLowerCase`, character by character (the
URLs and format names involved are ASCII). -/
def jsToLower (s : String) : String := ⟨s.data.map Char.toLower⟩

/-- `detectFormatFromUrl` from thumbnail.ts lines 138-144: substring checks on
the lowercased URL, in the order `.gif`, `.png`, `.webp`, with `jpeg` as the
fallback. -/
def detectFormatFromUrl (imageUrl : String) : String :=
  let lowerUrl := jsToLower imageUrl
  if jsIncludes lowerUrl ".gif" then "gif"
  else if jsIncludes lowerUrl ".png" then "png"
  else if jsIncludes lowerUrl ".webp" then "webp"
  else "jpeg"

/-- thumbnail.ts line 146: `(format as string) || detectFormatFromUrl(url)`.
A missing parameter (`none`) and the empty string are both falsy in
JavaScript, so both fall back to auto-detection. -/
def outputFormatOf (format : Option String) (url : String) : String :=
  match format with
  | some f => if f = "" then detectFormatFromUrl url else f
  | none => detectFormatFromUrl url

/-- Modelled from the claim (spec §4.2): the file extension of a URL — the
part after the last dot, lowercased; empty when the URL has no dot. -/
def specLastExt (s : String) : String :=
  let l := (jsToLower s).data
  if l.contains '.' then ⟨(l.reverse.takeWhile (fun c => c ≠ '.')).reverse⟩ else ""

/-- Modelled from the claim (spec §4.2): format determined by the source
URL's file extension: `.gif`→gif, `.png`→png, `.webp`→webp, any other
extension→jpeg. Stated from the spec's words, to be compared with the
source's `detectFormatFromUrl`. -/
def specFormatFromExtension (url : String) : String :=
  let ext := specLastExt url
  if ext = "gif" then "gif"
  else if ext = "png" then "png"
  else if ext = "webp" then "webp"
  else "jpeg"

/-! ## Thumbnail query-parameter parsing (thumbnail.ts, lines 125-167) -/

/-- Is this a JavaScript whitespace character that `parseInt` skips?
(Restricted to the ASCII whitespace relevant to query strings.) -/
def isWsChar (c : Char) : Bool := c == ' ' || c == '\t' || c == '\n' || c == '\r'

/-- Value of a list of decimal digit characters, most significant first. -/
def jsDigitsVal (l : List Char) : Nat :=
  l.foldl (fun a c => 10 * a + charDigitVal c) 0

/-- JavaScript `parseInt(s, 10)`: skip leading whitespace, read an optional
sign, then the longest prefix of decimal digits; `NaN` (here `none`) when
that prefix is empty. -/
def jsParseInt (s : String) : Option Int :=
  let l := s.data.dropWhile isWsChar
  let signAndRest : Int × List Char :=
    match l with
    | '-' :: t => (-1, t)
    | '+' :: t => (1, t)
    | t => (1, t)
  let ds := signAndRest.2.takeWhile (fun c => c.isDigit)
  if ds = [] then none else some (signAndRest.1 * (jsDigitsVal ds : Int))

/-- thumbnail.ts lines 133-135: `parseInt(x, 10) || default`. `NaN` and `0`
are falsy, so both are replaced by the default; every other parsed value
(including negative or out-of-range ones) is kept. -/
def parseDim (x : Option String) (dflt : Int) : Int :=
  match x with
  | none => dflt
  | some s =>
    match jsParseInt s with
    | none => dflt
    | some v => if v = 0 then dflt else v

/-- `validFormats` from thumbnail.ts line 149. -/
def validFormats : List String := ["jpeg", "jpg", "png", "webp", "gif"]

/-- thumbnail.ts lines 157-158: lowercase the format and map `jpg` to `jpeg`. -/
def normalizeFormat (f : String) : String :=
  if jsToLower f = "jpg" then "jpeg" else jsToLower f

/-- The validated parameters the thumbnail handler computes before the cache
lookup and transform stage. -/
structure ThumbParams where
  url : String
  width : Int
  height : Int
  format : String
  quality : Int
deriving DecidableEq, Repr

/-- The parameter-validation phase of the thumbnail handler
(thumbnail.ts lines 125-167): reject a missing/empty `url` (400), parse
dimensions and quality with defaults, resolve the output format, reject an
invalid format (400), and otherwise hand the parameters to the transform
stage. Errors carry the HTTP status and message. -/
def thumbnailValidate (url width height format quality : Option String) :
    Except (Nat × String) ThumbParams :=
  match url with
  | none => .error (400, "Missing required \x27url\x27 parameter")
  | some u =>
    if u = "" then .error (400, "Missing required \x27url\x27 parameter")
    else
      let targetWidth := parseDim width 350
      let targetHeight := parseDim height 350
      let outputQuality := parseDim quality 80
      let outputFormat := outputFormatOf format u
      if validFormats.contains (jsToLower outputFormat) then
        .ok ⟨u, targetWidth, targetHeight, normalizeFormat outputFormat, outputQuality⟩
      else .error (400, "Invalid format")

/-! ## GIF endpoint: configuration and errors (create-filtered-gif.ts) -/

/-- `MAX_IMAGE_SIZE_MB` from create-filtered-gif.ts line 221. -/
def MAX_IMAGE_SIZE_MB : Nat := 10

/-- `DEFAULT_FRAME_DELAY_MS` from create-filtered-gif.ts line 225. -/
def DEFAULT_FRAME_DELAY_MS : Int := 500

/-- `MIN_FRAME_DELAY_MS` from create-filtered-gif.ts line 226. -/
def MIN_FRAME_DELAY_MS : Int := 10

/-- `MAX_FRAME_DELAY_MS` from create-filtered-gif.ts line 227. -/
def MAX_FRAME_DELAY_MS : Int := 10000

/-- `MIN_DELAY_MS` from create-filtered-gif.ts line 643: the 200 ms floor
enforced on the encoded per-frame delay. -/
def MIN_DELAY_MS : Int := 200

/-- The errors the GIF handler can throw (create-filtered-gif.ts). Each
constructor corresponds to one `throw`/`reject` site in the source; numeric
message fragments that do not affect status classification are carried as
parameters. `decodeFailure` stands for the error sharp raises on
unsupported/corrupt image bytes (sharp is an external library; its message is
modelled from its documented wording, which contains none of the status
classifier's keywords). -/
inductive GifError where
  | noImages
  | invalidFrameDelay
  | sizeExceeded (i : Nat) (mb : String)
  | unableToReadDims (i : Nat)
  | dimensionMismatch (i w h mw mh : Nat) (wdPct hdPct : String)
  | noFramesToEncode
  | noValidFrames
  | encodingInvalidHeader
  | encodingTooShort
  | decodeFailure
deriving DecidableEq, Repr

/-- The message text of each thrown error, from the source. -/
def GifError.message : GifError → String
  | .noImages => "No images provided. Use \x27images\x27 or \x27images[]\x27 field."
  | .invalidFrameDelay => "frameDelay must be between 10 and 10000 milliseconds"
  | .sizeExceeded i mb =>
    ("Image " ++ natStr (i + 1)) ++ (" exceeds 10MB limit: " ++ (mb ++ "MB"))
  | .unableToReadDims i => ("Image " ++ natStr (i + 1)) ++ ": Unable to read dimensions"
  | .dimensionMismatch i w h mw mh wdPct hdPct =>
    ("Image " ++ natStr (i + 1)) ++ (" dimensions (" ++ (natStr w ++ ("x" ++ (natStr h ++
      (") differ from minimum (" ++ (natStr mw ++ ("x" ++ (natStr mh ++
      (") by more than 10%. Width difference: " ++ (wdPct ++ ("%, Height difference: " ++
      (hdPct ++ "%. All images must have dimensions within 10% of each other."))))))))))))
  | .noFramesToEncode => "No frames to encode"
  | .noValidFrames => "No valid frames processed"
  | .encodingInvalidHeader => "GIF encoding failed - invalid header"
  | .encodingTooShort => "GIF encoding failed - bytes too short"
  | .decodeFailure => "Input buffer contains unsupported image format"

/-- The status classifier from create-filtered-gif.ts lines 949-955: 400 when
the error message contains one of four substrings, 500 otherwise. -/
def statusCodeOf (msg : String) : Nat :=
  if jsIncludes msg "exceeds" || jsIncludes msg "dimensions" ||
      jsIncludes msg "frameDelay" || jsIncludes msg "No images" then 400
  else 500

/-- The claim's list of conditions that are supposed to receive status 400:
no-images, per-file size-exceeded, dimension-mismatch-beyond-tolerance, and
invalid-frameDelay. Stated from the claim's words. -/
def specIs400B : GifError → Bool
  | .noImages => true
  | .invalidFrameDelay => true
  | .sizeExceeded _ _ => true
  | .dimensionMismatch _ _ _ _ _ _ _ => true
  | _ => false

/-! ## GIF endpoint: form parsing (create-filtered-gif.ts, lines 247-353) -/

/-- create-filtered-gif.ts lines 324-348: the `frameDelay` field is parsed
with `parseInt` when present and truthy (a missing field or an empty string
yields the default 500), and rejected when `NaN`, below 10, or above 10000. -/
def parseFrameDelayField (frameDelayStr : Option String) : Except GifError Int :=
  let parsed : Option Int :=
    match frameDelayStr with
    | none => some DEFAULT_FRAME_DELAY_MS
    | some s => if s = "" then some DEFAULT_FRAME_DELAY_MS else jsParseInt s
  match parsed with
  | none => .error .invalidFrameDelay
  | some d =>
    if d < MIN_FRAME_DELAY_MS ∨ MAX_FRAME_DELAY_MS < d then .error .invalidFrameDelay
    else .ok d

/-- A temporary file formidable wrote to the upload directory. -/
structure UploadedFile where
  filepath : String
deriving DecidableEq, Repr

/-- A parsed multipart request: the files uploaded under the `images` /
`images[]` fields, any files uploaded under other field names (also written
to disk by formidable), and the raw `frameDelay` field. -/
structure GifReq where
  files : List UploadedFile
  otherFiles : List UploadedFile
  frameDelayField : Option String

/-- `parseFormData` outcome (create-filtered-gif.ts lines 247-353): reject
when no files arrived under `images`/`images[]`, then validate `frameDelay`;
on success resolve with the image files and the delay. -/
def gifParse (r : GifReq) : Except GifError (List UploadedFile × Int) :=
  if r.files.isEmpty then .error .noImages
  else
    match parseFrameDelayField r.frameDelayField with
    | .error e => .error e
    | .ok d => .ok (r.files, d)

/-- The per-frame delays passed to the encoder's `writeFrame`
(create-filtered-gif.ts lines 639-657): the requested delay with a hard
200 ms floor, identical for every frame. -/
def gifFrameDelays (numFrames : Nat) (frameDelay : Int) : List Int :=
  (List.range numFrames).map (fun _ => if frameDelay < MIN_DELAY_MS then MIN_DELAY_MS else frameDelay)

/-- The GIF handler's control flow around temp files (create-filtered-gif.ts
lines 737-961), with the image-processing middle abstracted as `proc`.
`tempFiles` starts empty and is assigned the parsed image files only after
`parseFormData` resolves; both the success path (lines 901-913) and the catch
block (lines 935-944) delete exactly the files in `tempFiles`. Returns the
response status, the list of deleted files, and the encoded frame delays (empty
when no encoding happened). -/
def gifHandler (proc : List UploadedFile → Int → Except GifError (List Int))
    (r : GifReq) : Nat × List UploadedFile × List Int :=
  match gifParse r with
  | .error e => (statusCodeOf e.message, [], [])
  | .ok (files, d) =>
    match proc files d with
    | .error e => (statusCodeOf e.message, files, [])
    | .ok delays => (200, files, delays)

/-- The files the handler deleted for this request. -/
def gifDeletedFiles (proc : List UploadedFile → Int → Except GifError (List Int))
    (r : GifReq) : List UploadedFile :=
  (gifHandler proc r).2.1

/-- The uploaded temporary files still on disk after the response is sent. -/
def gifRemainingFiles (proc : List UploadedFile → Int → Except GifError (List Int))
    (r : GifReq) : List UploadedFile :=
  (r.files ++ r.otherFiles).filter (fun f => !((gifDeletedFiles proc r).contains f))

/-- A standard processing stage that succeeds and encodes every frame with
the floored delay (the happy path of the pipeline). -/
def procStd : List UploadedFile → Int → Except GifError (List Int) :=
  fun fs d => .ok (gifFrameDelays fs.length d)

/-! ## GIF endpoint: dimension audit and normalization
(create-filtered-gif.ts, lines 761-872 and 434-453) -/

/-- `Math.min` over the widths of the uploaded frames
(create-filtered-gif.ts line 794). Frames are modelled by their
(width, height) pairs. -/
def minWidth (dims : List (Nat × Nat)) : Nat :=
  match dims with
  | [] => 0
  | d :: rest => rest.foldl (fun m p => min m p.1) d.1

/-- `Math.min` over the heights of the uploaded frames
(create-filtered-gif.ts line 795). -/
def minHeight (dims : List (Nat × Nat)) : Nat :=
  match dims with
  | [] => 0
  | d :: rest => rest.foldl (fun m p => min m p.2) d.2

/-- The source's per-dimension tolerance test (create-filtered-gif.ts
lines 818-828): `((v − m) / m) * 100 > 10`, in exact rational arithmetic. -/
def tolViolB (m v : Nat) : Bool :=
  decide ((((v : ℚ) - (m : ℚ)) / (m : ℚ)) * 100 > 10)

/-- Index (1-based, as the source reports `dim.index + 1`) of the first frame
whose width or height differs from the minimum by more than 10%. -/
def firstViolation (mW mH : Nat) : List (Nat × Nat) → Nat → Option Nat
  | [], _ => none
  | d :: rest, i =>
    if tolViolB mW d.1 || tolViolB mH d.2 then some (i + 1)
    else firstViolation mW mH rest (i + 1)

/-- The dimension audit of the GIF handler (create-filtered-gif.ts
lines 801-842): when some frame differs from the minimum dimensions, every
frame is checked against the 10% rule and the first offender aborts the
request (its 1-based index is the error payload); otherwise processing
continues. -/
def checkDims (dims : List (Nat × Nat)) : Except Nat Unit :=
  let mW := minWidth dims
  let mH := minHeight dims
  if dims.any (fun d => d.1 != mW || d.2 != mH) then
    match firstViolation mW mH dims 0 with
    | some j => .error j
    | none => .ok ()
  else .ok ()

/-- The geometric effect of one sharp `resize` call on a frame: the output
dimensions, the uniform scale factor applied to the source pixels, and the
offsets of the crop window inside the scaled image. -/
structure CoverPlan where
  outW : Nat
  outH : Nat
  scale : ℚ
  cropX : ℚ
  cropY : ℚ
deriving DecidableEq, Repr

/-- No resize call: the frame is passed through unchanged. -/
def identityPlan (d : Nat × Nat) : CoverPlan :=
  { outW := d.1, outH := d.2, scale := 1, cropX := 0, cropY := 0 }

/-- Modelled from the spec (glossary "Cover fit" and the source comment at
create-filtered-gif.ts lines 442-445): sharp's
`resize(tw, th, fit: cover, position: left)` scales the source by
`max(tw/w, th/h)` so it fills the target box preserving aspect ratio, then
crops the overflow with the window anchored to the left horizontally and
centered vertically. -/
def coverResize (w h tw th : Nat) : CoverPlan :=
  let s : ℚ := max ((tw : ℚ) / (w : ℚ)) ((th : ℚ) / (h : ℚ))
  { outW := tw, outH := th, scale := s, cropX := 0, cropY := (s * (h : ℚ) - (th : ℚ)) / 2 }

/-- `processImageFrame` (create-filtered-gif.ts lines 434-453), reduced to
its geometry: when `cropTo` is given and the frame's dimensions differ from
it, the frame is resized with cover fit and `position: left`; otherwise it is
passed through. -/
def processImageFrame (d : Nat × Nat) (cropTo : Option (Nat × Nat)) : CoverPlan :=
  match cropTo with
  | some target =>
    if d.1 ≠ target.1 ∨ d.2 ≠ target.2 then coverResize d.1 d.2 target.1 target.2
    else identityPlan d
  | none => identityPlan d

/-- Step 4 of the GIF handler (create-filtered-gif.ts lines 844-872): each
frame whose dimensions differ from the minimum is processed with
`cropTo = (minW, minH)`; frames already at the minimum are passed through. -/
def pipelinePlans (dims : List (Nat × Nat)) : List CoverPlan :=
  let mW := minWidth dims
  let mH := minHeight dims
  dims.map (fun d =>
    if d.1 ≠ mW ∨ d.2 ≠ mH then processImageFrame d (some (mW, mH))
    else processImageFrame d none)

/-! ## Cache lemmas -/

theorem totalSize_nil : totalSize [] = 0 := rfl

theorem totalSize_cons (e : CacheEntryM) (l : List CacheEntryM) :
    totalSize (e :: l) = e.size + totalSize l := by
  simp [totalSize]

theorem totalSize_reverse (l : List CacheEntryM) : totalSize l.reverse = totalSize l := by
  simp [totalSize, List.sum_reverse]

theorem totalSize_filter_le (p : CacheEntryM → Bool) (l : List CacheEntryM) :
    totalSize (l.filter p) ≤ totalSize l := by
  induction l with
  | nil => exact Nat.le_refl _
  | cons a l ih =>
    rw [List.filter_cons]
    cases hpa : p a
    · simp only [Bool.false_eq_true, if_false, totalSize_cons]
      omega
    · simp only [if_true, totalSize_cons]
      omega

theorem totalSize_eraseP_le (p : CacheEntryM → Bool) (l : List CacheEntryM) :
    totalSize (l.eraseP p) ≤ totalSize l := by
  induction l with
  | nil => exact Nat.le_refl _
  | cons a l ih =>
    cases hpa : p a
    · rw [List.eraseP_cons_of_neg (by simp [hpa]), totalSize_cons, totalSize_cons]
      omega
    · rw [List.eraseP_cons_of_pos (by simp [hpa]), totalSize_cons]
      omega

theorem totalSize_eraseP_find? (p : CacheEntryM → Bool) (l : List CacheEntryM)
    (e : CacheEntryM) (h : l.find? p = some e) :
    totalSize (l.eraseP p) + e.size = totalSize l := by
  induction l with
  | nil => simp at h
  | cons a l ih =>
    cases hpa : p a
    · rw [List.find?_cons_of_neg l (by simp [hpa])] at h
      rw [List.eraseP_cons_of_neg (by simp [hpa]), totalSize_cons, totalSize_cons]
      have := ih h
      omega
    · rw [List.find?_cons_of_pos l (by simp [hpa])] at h
      cases h
      rw [List.eraseP_cons_of_pos (by simp [hpa]), totalSize_cons]
      omega

theorem evictFits_total (sz : Nat) (hsz : sz ≤ CACHE_MAX_SIZE_BYTES) :
    ∀ l : List CacheEntryM, totalSize (evictFits sz l) + sz ≤ CACHE_MAX_SIZE_BYTES
  | [] => by simpa [evictFits, totalSize] using hsz
  | e :: rest => by
    rw [evictFits]
    split
    · assumption
    · exact evictFits_total sz hsz rest

theorem evictFits_suffix (sz : Nat) : ∀ l : List CacheEntryM, evictFits sz l <:+ l
  | [] => List.suffix_refl _
  | e :: rest => by
    rw [evictFits]
    split
    · exact List.suffix_refl _
    · exact (evictFits_suffix sz rest).trans (List.suffix_cons e rest)

theorem find?_of_prefix {α : Type} (p : α → Bool) {l₁ l₂ : List α} (h : l₁ <+: l₂)
    {e : α} (he : l₁.find? p = some e) : l₂.find? p = some e := by
  obtain ⟨t, rfl⟩ := h
  induction l₁ with
  | nil => simp at he
  | cons a l ih =>
    cases hpa : p a
    · rw [List.find?_cons_of_neg l (by simp [hpa])] at he
      rw [List.cons_append, List.find?_cons_of_neg (l ++ t) (by simp [hpa])]
      exact ih he
    · rw [List.find?_cons_of_pos l (by simp [hpa])] at he
      rw [List.cons_append, List.find?_cons_of_pos (l ++ t) (by simp [hpa])]
      exact he

theorem find?_eraseP_other {α : Type} {p q : α → Bool}
    (hpq : ∀ a, q a = true → p a = false) :
    ∀ l : List α, (l.eraseP q).find? p = l.find? p := by
  intro l
  induction l with
  | nil => rfl
  | cons a l ih =>
    cases hqa : q a
    · rw [List.eraseP_cons_of_neg (by simp [hqa])]
      cases hpa : p a
      · rw [List.find?_cons_of_neg (l.eraseP q) (by simp [hpa]),
          List.find?_cons_of_neg l (by simp [hpa])]
        exact ih
      · rw [List.find?_cons_of_pos (l.eraseP q) (by simp [hpa]),
          List.find?_cons_of_pos l (by simp [hpa])]
    · rw [List.eraseP_cons_of_pos (by simp [hqa]),
        List.find?_cons_of_neg l (by simp [hpq a hqa])]

theorem totalSize_cachePut_le (t : Nat) (k : String) (sz : Nat) (l : List CacheEntryM)
    (hsz : sz ≤ CACHE_MAX_SIZE_BYTES) :
    totalSize (cachePut t k sz l) ≤ CACHE_MAX_SIZE_BYTES := by
  rw [cachePut, if_neg (by omega)]
  rw [totalSize_cons, totalSize_reverse]
  have h1 : ({ key := k, size := sz, start := t } : CacheEntryM).size = sz := rfl
  have h2 := evictFits_total sz hsz ((eraseKey k l).reverse)
  omega

theorem totalSize_cacheGet_le (t : Nat) (k : String) (l : List CacheEntryM) :
    totalSize (cacheGet t k l).2 ≤ totalSize l := by
  rw [cacheGet]
  cases hf : findEntry k l with
  | none => exact Nat.le_refl _
  | some e =>
    simp only
    split
    · exact totalSize_eraseP_le _ l
    · rw [totalSize_cons]
      have := totalSize_eraseP_find? (fun e => e.key == k) l e hf
      simp only [eraseKey]
      omega

theorem totalSize_applyOp_le (op : CacheOp) (l : List CacheEntryM)
    (h : totalSize l ≤ CACHE_MAX_SIZE_BYTES) :
    totalSize (applyOp l op) ≤ CACHE_MAX_SIZE_BYTES := by
  cases op with
  | put t k sz =>
    by_cases hsz : sz ≤ CACHE_MAX_SIZE_BYTES
    · exact totalSize_cachePut_le t k sz l hsz
    · rw [applyOp, cachePut, if_pos (by omega)]
      exact h
  | get t k => exact Nat.le_trans (totalSize_cacheGet_le t k l) h

theorem totalSize_foldl_le (ops : List CacheOp) :
    ∀ l : List CacheEntryM, totalSize l ≤ CACHE_MAX_SIZE_BYTES →
      totalSize (ops.foldl applyOp l) ≤ CACHE_MAX_SIZE_BYTES := by
  induction ops with
  | nil => intro l h; exact h
  | cons op ops ih =>
    intro l h
    rw [List.foldl_cons]
    exact ih _ (totalSize_applyOp_le op l h)

theorem totalSize_runOps_le (ops : List CacheOp) :
    totalSize (runOps ops) ≤ CACHE_MAX_SIZE_BYTES :=
  totalSize_foldl_le ops [] (by rw [totalSize_nil]; exact Nat.zero_le _)

theorem liveSize_le_totalSize (now : Nat) (l : List CacheEntryM) :
    liveSize now l ≤ totalSize l :=
  totalSize_filter_le _ l

theorem beq_key_trans_false {k k' : String} (hk : (k' == k) = false) :
    ∀ a : CacheEntryM, (a.key == k') = true → (a.key == k) = false := by
  intro a ha
  have h : a.key = k' := eq_of_beq ha
  rw [h]
  exact hk

theorem findEntry_applyOp_untouched (k : String) (op : CacheOp)
    (hop : opTouches k op = false) (l : List CacheEntryM) :
    findEntry k (applyOp l op) = none ∨ findEntry k (applyOp l op) = findEntry k l := by
  cases op with
  | put t' k' sz' =>
    have hk : (k' == k) = false := hop
    rw [applyOp, cachePut]
    split
    · right; rfl
    · rw [findEntry, List.find?_cons_of_neg _ (by simp [hk])]
      cases hx : (evictFits sz' ((eraseKey k' l).reverse)).reverse.find? (fun e => e.key == k) with
      | none => left; rfl
      | some e =>
        right
        have hsuf : evictFits sz' ((eraseKey k' l).reverse) <:+ (eraseKey k' l).reverse :=
          evictFits_suffix sz' ((eraseKey k' l).reverse)
        have hsuf2 : (evictFits sz' ((eraseKey k' l).reverse)).reverse.reverse <:+
            (eraseKey k' l).reverse := by
          rw [List.reverse_reverse]
          exact hsuf
        have hpre : (evictFits sz' ((eraseKey k' l).reverse)).reverse <+: eraseKey k' l :=
          List.reverse_suffix.mp hsuf2
        have h1 : (eraseKey k' l).find? (fun e => e.key == k) = some e :=
          find?_of_prefix _ hpre hx
        have h2 := @find?_eraseP_other CacheEntryM (fun e => e.key == k)
          (fun e => e.key == k') (beq_key_trans_false hk) l
        have h1e : (List.eraseP (fun e => e.key == k') l).find? (fun e => e.key == k) =
            some e := h1
        rw [findEntry, ← h2]
        exact h1e.symm
  | get t' k' =>
    have hk : (k' == k) = false := hop
    rw [applyOp, cacheGet]
    cases hf : findEntry k' l with
    | none => right; rfl
    | some e =>
      have hf2 : l.find? (fun e => e.key == k') = some e := hf
      have hek : (e.key == k') = true := by
        have h := List.find?_some hf2
        simpa using h
      simp only
      split
      · right
        exact @find?_eraseP_other CacheEntryM (fun e => e.key == k)
          (fun e => e.key == k') (beq_key_trans_false hk) l
      · right
        rw [findEntry, List.find?_cons_of_neg _ (by simp [beq_key_trans_false hk e hek])]
        exact @find?_eraseP_other CacheEntryM (fun e => e.key == k)
          (fun e => e.key == k') (beq_key_trans_false hk) l

theorem findEntry_foldl_untouched (k : String) (ops : List CacheOp)
    (hops : ∀ op ∈ ops, opTouches k op = false) :
    ∀ l, findEntry k (ops.foldl applyOp l) = none ∨
      findEntry k (ops.foldl applyOp l) = findEntry k l := by
  induction ops with
  | nil => intro l; right; rfl
  | cons op ops ih =>
    intro l
    rw [List.foldl_cons]
    have hstep := findEntry_applyOp_untouched k op (hops op (by simp)) l
    have hrest := ih (fun o ho => hops o (by simp [ho])) (applyOp l op)
    rcases hrest with h | h
    · left; exact h
    · rcases hstep with h2 | h2
      · left; rw [h, h2]
      · right; rw [h, h2]

/-- C1: for every sequence of put (and get) operations on the thumbnail
cache, the sum of `sizeBytes` over live (non-expired) entries never exceeds
the 300 MiB byte budget; a put whose single entry exceeds the budget is
rejected without storing anything, and an accepted put evicts
least-recently-used entries until the store is within budget. -/
theorem C1_cache_byte_budget :
    (∀ (ops : List CacheOp) (now : Nat),
      liveSize now (runOps ops) ≤ CACHE_MAX_SIZE_BYTES) ∧
    (∀ (t : Nat) (k : String) (sz : Nat) (l : List CacheEntryM),
      CACHE_MAX_SIZE_BYTES < sz → cachePut t k sz l = l) ∧
    (∀ (t : Nat) (k : String) (sz : Nat) (l : List CacheEntryM),
      sz ≤ CACHE_MAX_SIZE_BYTES → totalSize (cachePut t k sz l) ≤ CACHE_MAX_SIZE_BYTES) := by
  refine ⟨fun ops now => ?_, fun t k sz l h => ?_, fun t k sz l h => ?_⟩
  · exact Nat.le_trans (liveSize_le_totalSize now (runOps ops)) (totalSize_runOps_le ops)
  · rw [cachePut, if_pos h]
  · exact totalSize_cachePut_le t k sz l h

/-- Witness for C1 at a concrete oversized put: a 400 MB entry is rejected
and the live-size bound holds after the attempt. -/
theorem C1_cache_byte_budget_witness :
    liveSize 0 (runOps [CacheOp.put 0 "a" 400000000]) ≤ CACHE_MAX_SIZE_BYTES ∧
    CACHE_MAX_SIZE_BYTES < 400000000 ∧
    cachePut 0 "a" 400000000 [] = [] :=
  ⟨C1_cache_byte_budget.1 [CacheOp.put 0 "a" 400000000] 0, by decide,
    C1_cache_byte_budget.2.1 0 "a" 400000000 [] (by decide)⟩

/-- C2 counterexample: the cache is configured with `updateAgeOnGet: true`,
so a read hit at 86399999 ms refreshes the TTL origin of the entry inserted
at time 0, and a `get` at time 86400000 ms = T + TTL still returns the
entry — the claim says any get at time ≥ T + TTL must miss. -/
theorem C2_ttl_refresh_counterexample :
    0 + CACHE_TTL_MS ≤ 86400000 ∧
    (cacheGet 86400000 "k" (runOps [CacheOp.put 0 "k" 1, CacheOp.get 86399999 "k"])).1 =
      some ⟨"k", 1, 86400000⟩ ∧
    (cacheGet 86400000 "k" (runOps [CacheOp.put 0 "k" 1, CacheOp.get 86399999 "k"])).1 ≠
      none := by
  refine ⟨by decide, rfl, by decide⟩

/-- C2 amended: an entry inserted at time T with no intervening operation on
its key is unreachable via `get` at any time ≥ T + TTL; read hits refresh
both recency and the TTL origin (`updateAgeOnGet: true`), so only the
absence of intervening hits on the key guarantees expiry at T + TTL. -/
theorem C2_ttl_expiry_amended :
    ∀ (l0 : List CacheEntryM) (t0 t sz : Nat) (k : String) (ops : List CacheOp),
      sz ≤ CACHE_MAX_SIZE_BYTES →
      (∀ op ∈ ops, opTouches k op = false) →
      t0 + CACHE_TTL_MS ≤ t →
      (cacheGet t k (ops.foldl applyOp (cachePut t0 k sz l0))).1 = none := by
  intro l0 t0 t sz k ops hsz hops ht
  have h0 : findEntry k (cachePut t0 k sz l0) = some ⟨k, sz, t0⟩ := by
    rw [cachePut, if_neg (by omega), findEntry, List.find?_cons_of_pos _ (by simp)]
  have hinv := findEntry_foldl_untouched k ops hops (cachePut t0 k sz l0)
  rw [h0] at hinv
  rcases hinv with h | h
  · rw [cacheGet, h]
  · rw [cacheGet, h]
    simp only
    rw [if_pos (by simpa using ht)]

/-- Witness for C2 amended: with no intervening operations, the entry
inserted at time 0 misses at exactly TTL. -/
theorem C2_ttl_expiry_amended_witness :
    (1 : Nat) ≤ CACHE_MAX_SIZE_BYTES ∧
    (cacheGet 86400000 "k" (([] : List CacheOp).foldl applyOp (cachePut 0 "k" 1 []))).1 =
      none :=
  ⟨by decide, C2_ttl_expiry_amended [] 0 86400000 1 "k" [] (by decide) (by simp) (by decide)⟩

/-! ## Cache-key lemmas -/

theorem charDigitVal_digitChar : ∀ d, d < 10 → charDigitVal (Nat.digitChar d) = d := by
  decide

theorem natOfStr_natStr (n : Nat) : natOfStr (natStr n) = n := by
  by_cases h : n = 0
  · subst h
    decide
  · rw [natStr, if_neg h, natOfStr]
    show Nat.ofDigits 10
      ((((Nat.digits 10 n).map Nat.digitChar).reverse.map charDigitVal).reverse) = n
    rw [List.map_reverse, List.reverse_reverse, List.map_map]
    have hmap : (Nat.digits 10 n).map (charDigitVal ∘ Nat.digitChar) = Nat.digits 10 n := by
      rw [show charDigitVal ∘ Nat.digitChar = fun d => charDigitVal (Nat.digitChar d) from rfl]
      rw [List.map_congr_left (fun d hd =>
        charDigitVal_digitChar d (Nat.digits_lt_base (by norm_num) hd))]
      exact List.map_id _
    rw [hmap, Nat.ofDigits_digits]

theorem natStr_injective : Function.Injective natStr := by
  intro a b hab
  have h := congrArg natOfStr hab
  rwa [natOfStr_natStr, natOfStr_natStr] at h

theorem getCacheKey_data (u : String) (w h : Nat) (f : String) (q : Nat) :
    (getCacheKey u w h f q).data =
      u.data ++ '|' :: ((natStr w).data ++ 'x' :: ((natStr h).data ++ '|' ::
        (f.data ++ '|' :: 'q' :: (natStr q).data))) := by
  simp [getCacheKey, List.append_assoc]

theorem getCacheKey_ne_of_url {u u' : String} {w h : Nat} {f : String} {q : Nat}
    (hne : u ≠ u') : getCacheKey u w h f q ≠ getCacheKey u' w h f q := by
  intro heq
  have hd := congrArg String.data heq
  rw [getCacheKey_data, getCacheKey_data] at hd
  exact hne (String.ext (List.append_cancel_right hd))

theorem getCacheKey_ne_of_width {u : String} {w w' h : Nat} {f : String} {q : Nat}
    (hne : w ≠ w') : getCacheKey u w h f q ≠ getCacheKey u w' h f q := by
  intro heq
  have hd := congrArg String.data heq
  rw [getCacheKey_data, getCacheKey_data] at hd
  have h1 := List.append_cancel_left hd
  injection h1 with _ h2
  exact hne (natStr_injective (String.ext (List.append_cancel_right h2)))

theorem getCacheKey_ne_of_height {u : String} {w h h' : Nat} {f : String} {q : Nat}
    (hne : h ≠ h') : getCacheKey u w h f q ≠ getCacheKey u w h' f q := by
  intro heq
  have hd := congrArg String.data heq
  rw [getCacheKey_data, getCacheKey_data] at hd
  have h1 := List.append_cancel_left hd
  injection h1 with _ h2
  have h3 := List.append_cancel_left h2
  injection h3 with _ h4
  exact hne (natStr_injective (String.ext (List.append_cancel_right h4)))

theorem getCacheKey_ne_of_format {u : String} {w h : Nat} {f f' : String} {q : Nat}
    (hne : f ≠ f') : getCacheKey u w h f q ≠ getCacheKey u w h f' q := by
  intro heq
  have hd := congrArg String.data heq
  rw [getCacheKey_data, getCacheKey_data] at hd
  have h1 := List.append_cancel_left hd
  injection h1 with _ h2
  have h3 := List.append_cancel_left h2
  injection h3 with _ h4
  have h5 := List.append_cancel_left h4
  injection h5 with _ h6
  exact hne (String.ext (List.append_cancel_right h6))

theorem getCacheKey_ne_of_quality {u : String} {w h : Nat} {f : String} {q q' : Nat}
    (hne : q ≠ q') : getCacheKey u w h f q ≠ getCacheKey u w h f q' := by
  intro heq
  have hd := congrArg String.data heq
  rw [getCacheKey_data, getCacheKey_data] at hd
  have h1 := List.append_cancel_left hd
  injection h1 with _ h2
  have h3 := List.append_cancel_left h2
  injection h3 with _ h4
  have h5 := List.append_cancel_left h4
  injection h5 with _ h6
  have h7 := List.append_cancel_left h6
  injection h7 with _ h8
  injection h8 with _ h9
  exact hne (natStr_injective (String.ext h9))

/-- C3: the cache key is exactly the string
`url|WIDTHxHEIGHT|format|qQUALITY`; requests with identical url, width,
height, format and quality fields get equal keys, and requests differing in
any single one of those fields get different keys. -/
theorem C3_cache_key :
    (∀ (u : String) (w h : Nat) (f : String) (q : Nat),
      getCacheKey u w h f q =
        u ++ "|" ++ natStr w ++ "x" ++ natStr h ++ "|" ++ f ++ "|q" ++ natStr q) ∧
    (∀ (u u' : String) (w w' h h' : Nat) (f f' : String) (q q' : Nat),
      u = u' → w = w' → h = h' → f = f' → q = q' →
      getCacheKey u w h f q = getCacheKey u' w' h' f' q') ∧
    (∀ (u u' : String) (w h : Nat) (f : String) (q : Nat),
      u ≠ u' → getCacheKey u w h f q ≠ getCacheKey u' w h f q) ∧
    (∀ (u : String) (w w' h : Nat) (f : String) (q : Nat),
      w ≠ w' → getCacheKey u w h f q ≠ getCacheKey u w' h f q) ∧
    (∀ (u : String) (w h h' : Nat) (f : String) (q : Nat),
      h ≠ h' → getCacheKey u w h f q ≠ getCacheKey u w h' f q) ∧
    (∀ (u : String) (w h : Nat) (f f' : String) (q : Nat),
      f ≠ f' → getCacheKey u w h f q ≠ getCacheKey u w h f' q) ∧
    (∀ (u : String) (w h : Nat) (f : String) (q q' : Nat),
      q ≠ q' → getCacheKey u w h f q ≠ getCacheKey u w h f q') := by
  refine ⟨fun u w h f q => rfl,
    fun u u' w w' h h' f f' q q' h1 h2 h3 h4 h5 => by rw [h1, h2, h3, h4, h5],
    fun u u' w h f q hne => getCacheKey_ne_of_url hne,
    fun u w w' h f q hne => getCacheKey_ne_of_width hne,
    fun u w h h' f q hne => getCacheKey_ne_of_height hne,
    fun u w h f f' q hne => getCacheKey_ne_of_format hne,
    fun u w h f q q' hne => getCacheKey_ne_of_quality hne⟩

/-- Witness for C3 at concrete requests: distinct url, width and format each
change the key. -/
theorem C3_cache_key_witness :
    getCacheKey "a.jpg" 350 350 "jpeg" 80 ≠ getCacheKey "b.jpg" 350 350 "jpeg" 80 ∧
    getCacheKey "a.jpg" 350 350 "jpeg" 80 ≠ getCacheKey "a.jpg" 351 350 "jpeg" 80 ∧
    getCacheKey "a.jpg" 350 350 "jpeg" 80 ≠ getCacheKey "a.jpg" 350 350 "png" 80 ∧
    getCacheKey "a.jpg" 350 350 "jpeg" 80 ≠ getCacheKey "a.jpg" 350 350 "jpeg" 81 :=
  ⟨C3_cache_key.2.2.1 "a.jpg" "b.jpg" 350 350 "jpeg" 80 (by decide),
   C3_cache_key.2.2.2.1 "a.jpg" 350 351 350 "jpeg" 80 (by decide),
   C3_cache_key.2.2.2.2.2.1 "a.jpg" 350 350 "jpeg" "png" 80 (by decide),
   C3_cache_key.2.2.2.2.2.2 "a.jpg" 350 350 "jpeg" 80 81 (by decide)⟩

/-! ## Format detection and thumbnail parameter theorems -/

/-- C9 counterexample: for the URL `a.png.jpg` the file extension is `.jpg`,
so the claim's extension rule gives `jpeg`, but the source searches for the
substring `.png` anywhere in the URL and returns `png`. -/
theorem C9_format_detection_counterexample :
    detectFormatFromUrl "a.png.jpg" = "png" ∧
    specFormatFromExtension "a.png.jpg" = "jpeg" ∧
    ("png" : String) ≠ "jpeg" :=
  ⟨rfl, rfl, by decide⟩

/-- C9 amended: when no format is given, the output format is chosen by
substring containment over the lowercased URL — `.gif` anywhere wins, then
`.png`, then `.webp`, and `jpeg` is the fallback (this agrees with the
extension rule only when no earlier marker occurs elsewhere in the URL); an
explicit non-empty format parameter is never overridden by auto-detection. -/
theorem C9_format_detection_amended :
    (∀ url : String,
      (detectFormatFromUrl url = "gif" ↔ jsIncludes (jsToLower url) ".gif" = true) ∧
      (detectFormatFromUrl url = "png" ↔
        (jsIncludes (jsToLower url) ".gif" = false ∧ jsIncludes (jsToLower url) ".png" = true)) ∧
      (detectFormatFromUrl url = "webp" ↔
        (jsIncludes (jsToLower url) ".gif" = false ∧ jsIncludes (jsToLower url) ".png" = false ∧
          jsIncludes (jsToLower url) ".webp" = true)) ∧
      (detectFormatFromUrl url = "jpeg" ↔
        (jsIncludes (jsToLower url) ".gif" = false ∧ jsIncludes (jsToLower url) ".png" = false ∧
          jsIncludes (jsToLower url) ".webp" = false))) ∧
    (∀ (f url : String), f ≠ "" → outputFormatOf (some f) url = f) := by
  constructor
  · intro url
    rw [detectFormatFromUrl]
    cases hg : jsIncludes (jsToLower url) ".gif" <;>
      cases hp : jsIncludes (jsToLower url) ".png" <;>
        cases hw : jsIncludes (jsToLower url) ".webp" <;>
          simp [hg, hp, hw]
  · intro f url hf
    rw [outputFormatOf, if_neg hf]

/-- Witness for C9 amended: an explicit `png` format on a `.gif` URL is kept. -/
theorem C9_format_detection_amended_witness :
    outputFormatOf (some "png") "x.gif" = "png" :=
  C9_format_detection_amended.2 "png" "x.gif" (by decide)

/-- C10: for a valid url and format, the width, height and quality query
parameters never produce a 400: validation succeeds for every value of those
three parameters, with missing, non-numeric or zero values replaced by the
defaults (350, 350, 80) and any other parsed value — including out-of-range
ones like 500 or negatives — passed through to the transform stage. -/
theorem C10_dims_never_400 :
    (∀ (u : String) (w h fmt q : Option String),
      u ≠ "" →
      validFormats.contains (jsToLower (outputFormatOf fmt u)) = true →
      thumbnailValidate (some u) w h fmt q =
        .ok ⟨u, parseDim w 350, parseDim h 350,
          normalizeFormat (outputFormatOf fmt u), parseDim q 80⟩) ∧
    parseDim none 350 = 350 ∧
    parseDim (some "abc") 350 = 350 ∧
    parseDim (some "0") 350 = 350 ∧
    parseDim (some "") 80 = 80 ∧
    parseDim (some "500") 80 = 500 ∧
    parseDim (some "-5") 350 = -5 := by
  refine ⟨fun u w h fmt q hu hfmt => ?_, by decide, by decide, by decide, by decide,
    by decide, by decide⟩
  simp only [thumbnailValidate]
  rw [if_neg hu]
  simp only [hfmt, if_true]

/-- Witness for C10: a request with non-numeric width, zero height and
quality 500 validates successfully with the defaults applied. -/
theorem C10_dims_never_400_witness :
    thumbnailValidate (some "a.jpg") (some "abc") (some "0") none (some "500") =
      .ok ⟨"a.jpg", parseDim (some "abc") 350, parseDim (some "0") 350,
        normalizeFormat (outputFormatOf none "a.jpg"), parseDim (some "500") 80⟩ :=
  C10_dims_never_400.1 "a.jpg" (some "abc") (some "0") none (some "500")
    (by decide) (by decide)

/-! ## Status-classifier lemmas -/

theorem jsIncludes_iff (s pat : String) : jsIncludes s pat = true ↔ pat.data <:+: s.data := by
  simp [jsIncludes]

theorem jsIncludes_append_right {y pat : String} (h : jsIncludes y pat = true)
    (x : String) : jsIncludes (x ++ y) pat = true := by
  rw [jsIncludes_iff] at h ⊢
  obtain ⟨p, q, hy⟩ := h
  exact ⟨x.data ++ p, q, by
    show (x.data ++ p) ++ pat.data ++ q = x.data ++ y.data
    rw [← hy]
    simp [List.append_assoc]⟩

theorem jsIncludes_append_left {x pat : String} (h : jsIncludes x pat = true)
    (y : String) : jsIncludes (x ++ y) pat = true := by
  rw [jsIncludes_iff] at h ⊢
  obtain ⟨p, q, hx⟩ := h
  exact ⟨p, q ++ y.data, by
    show p ++ pat.data ++ (q ++ y.data) = x.data ++ y.data
    rw [← hx]
    simp [List.append_assoc]⟩

theorem statusCodeOf_sizeExceeded (i : Nat) (mb : String) :
    statusCodeOf (GifError.message (.sizeExceeded i mb)) = 400 := by
  have h : jsIncludes (GifError.message (.sizeExceeded i mb)) "exceeds" = true := by
    apply jsIncludes_append_right
    exact jsIncludes_append_left (by decide) _
  simp [statusCodeOf, h]

theorem statusCodeOf_unableToReadDims (i : Nat) :
    statusCodeOf (GifError.message (.unableToReadDims i)) = 400 := by
  have h : jsIncludes (GifError.message (.unableToReadDims i)) "dimensions" = true := by
    apply jsIncludes_append_right
    decide
  simp [statusCodeOf, h]

theorem statusCodeOf_dimensionMismatch (i w h mw mh : Nat) (wdPct hdPct : String) :
    statusCodeOf (GifError.message (.dimensionMismatch i w h mw mh wdPct hdPct)) = 400 := by
  have h : jsIncludes (GifError.message (.dimensionMismatch i w h mw mh wdPct hdPct))
      "dimensions" = true := by
    apply jsIncludes_append_right
    exact jsIncludes_append_left (by decide) _
  simp [statusCodeOf, h]

/-- C8 counterexample: the source's own `Unable to read dimensions` error
(create-filtered-gif.ts lines 430-432 and 778-780) is classified 400 because
its message contains the substring `dimensions`, yet it is none of the four
conditions the claim allows to produce a 400 — it is a decode/metadata
failure, which the claim says must give 500. -/
theorem C8_status_counterexample :
    statusCodeOf (GifError.message (.unableToReadDims 0)) = 400 ∧
    specIs400B (.unableToReadDims 0) = false ∧
    statusCodeOf (GifError.message .decodeFailure) = 500 :=
  ⟨statusCodeOf_unableToReadDims 0, rfl, by decide⟩

/-- C8 amended: the handler classifies by substring matching on the error
message — 400 exactly when the message contains `exceeds`, `dimensions`,
`frameDelay` or `No images`. The four claimed conditions all match, but so
does the unable-to-read-dimensions metadata failure; a decode failure whose
message (sharp's unsupported-format error) avoids those substrings returns
500, as do the encoder sanity-check failures. -/
theorem C8_status_mapping_amended :
    statusCodeOf (GifError.message .decodeFailure) = 500 ∧
    (∀ e : GifError, statusCodeOf e.message = 400 ↔
      (specIs400B e = true ∨ ∃ i, e = .unableToReadDims i)) := by
  refine ⟨by decide, fun e => ?_⟩
  cases e with
  | noImages => exact iff_of_true (by decide) (Or.inl rfl)
  | invalidFrameDelay => exact iff_of_true (by decide) (Or.inl rfl)
  | sizeExceeded i mb => exact iff_of_true (statusCodeOf_sizeExceeded i mb) (Or.inl rfl)
  | unableToReadDims i =>
    exact iff_of_true (statusCodeOf_unableToReadDims i) (Or.inr ⟨i, rfl⟩)
  | dimensionMismatch i w h mw mh wdPct hdPct =>
    exact iff_of_true (statusCodeOf_dimensionMismatch i w h mw mh wdPct hdPct) (Or.inl rfl)
  | noFramesToEncode =>
    exact iff_of_false (by decide) (by rintro (h | ⟨i, h⟩); exact absurd h (by decide); cases h)
  | noValidFrames =>
    exact iff_of_false (by decide) (by rintro (h | ⟨i, h⟩); exact absurd h (by decide); cases h)
  | encodingInvalidHeader =>
    exact iff_of_false (by decide) (by rintro (h | ⟨i, h⟩); exact absurd h (by decide); cases h)
  | encodingTooShort =>
    exact iff_of_false (by decide) (by rintro (h | ⟨i, h⟩); exact absurd h (by decide); cases h)
  | decodeFailure =>
    exact iff_of_false (by decide) (by rintro (h | ⟨i, h⟩); exact absurd h (by decide); cases h)

/-! ## GIF delay and cleanup theorems -/

/-- C5: every accepted frameDelay in [10, 10000] is written into the encoded
stream as `max(frameDelay, 200)` for every frame (so frameDelay 10 encodes as
200 ms), while any frameDelay outside [10, 10000] — e.g. 5 — is rejected at
form-parsing validation with a message the classifier maps to 400, before the
processing/encoding stage is ever consulted. -/
theorem C5_frame_delay_floor :
    (∀ (n : Nat) (d : Int), 10 ≤ d → d ≤ 10000 →
      ∀ x ∈ gifFrameDelays n d, x = max d 200) ∧
    (∀ n : Nat, ∀ x ∈ gifFrameDelays n 10, x = 200) ∧
    (∀ (s : String) (d : Int), jsParseInt s = some d →
      (d < MIN_FRAME_DELAY_MS ∨ MAX_FRAME_DELAY_MS < d) →
      parseFrameDelayField (some s) = .error .invalidFrameDelay) ∧
    (parseFrameDelayField (some "5") = .error .invalidFrameDelay) ∧
    (statusCodeOf (GifError.message .invalidFrameDelay) = 400) ∧
    (∀ (r : GifReq) (e : GifError)
      (proc : List UploadedFile → Int → Except GifError (List Int)),
      gifParse r = .error e → gifHandler proc r = (statusCodeOf e.message, [], [])) := by
  refine ⟨fun n d h10 h10000 x hx => ?_, fun n x hx => ?_, fun s d hparse hrange => ?_,
    rfl, by decide, fun r e proc hparse => ?_⟩
  · simp only [gifFrameDelays, List.mem_map] at hx
    obtain ⟨i, _, hix⟩ := hx
    rw [← hix]
    by_cases hlt : d < MIN_DELAY_MS
    · rw [if_pos hlt]
      have : d ≤ 200 := le_of_lt hlt
      rw [max_eq_right this]
      rfl
    · rw [if_neg hlt]
      have : (200 : Int) ≤ d := not_lt.mp hlt
      rw [max_eq_left this]
  · simp only [gifFrameDelays, List.mem_map] at hx
    obtain ⟨i, _, hix⟩ := hx
    rw [← hix]
    decide
  · by_cases hs : s = ""
    · subst hs
      rw [show jsParseInt "" = none from rfl] at hparse
      cases hparse
    · rw [parseFrameDelayField]
      simp only [if_neg hs, hparse]
      rw [if_pos hrange]
  · rw [gifHandler, hparse]

/-- Witness for C5: with two frames and frameDelay 10, the delay written for
a frame is 200 ms. -/
theorem C5_frame_delay_floor_witness :
    (200 : Int) ∈ gifFrameDelays 2 10 ∧ (200 : Int) = max 10 200 :=
  ⟨by decide, C5_frame_delay_floor.1 2 10 (by decide) (by decide) 200 (by decide)⟩

/-- C7: evaluation of the cleanup flow at the failing input. A request whose
upload succeeds (one temp file under `images`) but whose frameDelay field is
`5` is rejected inside `parseFormData`; the handler's `tempFiles` is still
empty when the catch block runs, so the uploaded temp file is never deleted
even though a 400 response is sent. When parsing succeeds (frameDelay 500)
the same upload is deleted. -/
theorem C7_cleanup_missed_on_parse_reject :
    gifRemainingFiles procStd ⟨[⟨"tmp-upload-1"⟩], [], some "5"⟩ = [⟨"tmp-upload-1"⟩] ∧
    (gifHandler procStd ⟨[⟨"tmp-upload-1"⟩], [], some "5"⟩).1 = 400 ∧
    gifRemainingFiles procStd ⟨[⟨"tmp-upload-1"⟩], [], some "500"⟩ = [] := by
  refine ⟨by decide, by decide, by decide⟩

/-! ## Dimension-audit lemmas -/

theorem checkDims_eq (dims : List (Nat × Nat)) :
    checkDims dims =
      (if dims.any (fun d => d.1 != minWidth dims || d.2 != minHeight dims) then
        match firstViolation (minWidth dims) (minHeight dims) dims 0 with
        | some j => .error j
        | none => .ok ()
      else .ok ()) := rfl

theorem foldl_min_le_acc (f : Nat × Nat → Nat) :
    ∀ (l : List (Nat × Nat)) (acc : Nat), l.foldl (fun m p => min m (f p)) acc ≤ acc := by
  intro l
  induction l with
  | nil => intro acc; exact Nat.le_refl _
  | cons a t ih =>
    intro acc
    rw [List.foldl_cons]
    exact Nat.le_trans (ih (min acc (f a))) (Nat.min_le_left _ _)

theorem foldl_min_le_mem (f : Nat × Nat → Nat) :
    ∀ (l : List (Nat × Nat)) (acc : Nat) (d : Nat × Nat), d ∈ l →
      l.foldl (fun m p => min m (f p)) acc ≤ f d := by
  intro l
  induction l with
  | nil => intro acc d hd; cases hd
  | cons a t ih =>
    intro acc d hd
    rw [List.foldl_cons]
    rcases List.mem_cons.mp hd with h | h
    · subst h
      exact Nat.le_trans (foldl_min_le_acc f t (min acc (f d))) (Nat.min_le_right _ _)
    · exact ih (min acc (f a)) d h

theorem foldl_min_pos (f : Nat × Nat → Nat) :
    ∀ (l : List (Nat × Nat)) (acc : Nat), 0 < acc → (∀ p ∈ l, 0 < f p) →
      0 < l.foldl (fun m p => min m (f p)) acc := by
  intro l
  induction l with
  | nil => intro acc hacc _; exact hacc
  | cons a t ih =>
    intro acc hacc hl
    rw [List.foldl_cons]
    exact ih (min acc (f a))
      (lt_min hacc (hl a (List.mem_cons_self a t)))
      (fun p hp => hl p (List.mem_cons_of_mem a hp))

theorem minWidth_le (dims : List (Nat × Nat)) (d : Nat × Nat) (hd : d ∈ dims) :
    minWidth dims ≤ d.1 := by
  cases dims with
  | nil => cases hd
  | cons a t =>
    rw [minWidth]
    rcases List.mem_cons.mp hd with h | h
    · subst h
      exact foldl_min_le_acc (fun p => p.1) t d.1
    · exact foldl_min_le_mem (fun p => p.1) t a.1 d h

theorem minHeight_le (dims : List (Nat × Nat)) (d : Nat × Nat) (hd : d ∈ dims) :
    minHeight dims ≤ d.2 := by
  cases dims with
  | nil => cases hd
  | cons a t =>
    rw [minHeight]
    rcases List.mem_cons.mp hd with h | h
    · subst h
      exact foldl_min_le_acc (fun p => p.2) t d.2
    · exact foldl_min_le_mem (fun p => p.2) t a.2 d h

theorem minWidth_pos (dims : List (Nat × Nat)) (hne : dims ≠ [])
    (hpos : ∀ p ∈ dims, 0 < p.1 ∧ 0 < p.2) : 0 < minWidth dims := by
  cases dims with
  | nil => exact absurd rfl hne
  | cons a t =>
    rw [minWidth]
    exact foldl_min_pos (fun p => p.1) t a.1
      (hpos a (List.mem_cons_self a t)).1
      (fun p hp => (hpos p (List.mem_cons_of_mem a hp)).1)

theorem minHeight_pos (dims : List (Nat × Nat)) (hne : dims ≠ [])
    (hpos : ∀ p ∈ dims, 0 < p.1 ∧ 0 < p.2) : 0 < minHeight dims := by
  cases dims with
  | nil => exact absurd rfl hne
  | cons a t =>
    rw [minHeight]
    exact foldl_min_pos (fun p => p.2) t a.2
      (hpos a (List.mem_cons_self a t)).2
      (fun p hp => (hpos p (List.mem_cons_of_mem a hp)).2)

theorem tolViolB_iff (m v : Nat) (hm : 0 < m) :
    tolViolB m v = true ↔ ((v : ℚ) - (m : ℚ)) / (m : ℚ) > 1 / 10 := by
  have hmQ : (0 : ℚ) < (m : ℚ) := by exact_mod_cast hm
  rw [tolViolB, decide_eq_true_eq]
  constructor
  · intro h
    linarith
  · intro h
    linarith

theorem firstViolation_none_iff (mW mH : Nat) :
    ∀ (l : List (Nat × Nat)) (i : Nat),
      firstViolation mW mH l i = none ↔
        ∀ d ∈ l, tolViolB mW d.1 = false ∧ tolViolB mH d.2 = false := by
  intro l
  induction l with
  | nil => intro i; simp [firstViolation]
  | cons a t ih =>
    intro i
    rw [firstViolation]
    by_cases hc : (tolViolB mW a.1 || tolViolB mH a.2) = true
    · rw [if_pos hc]
      simp only [Bool.or_eq_true] at hc
      constructor
      · intro h; cases h
      · intro h
        rcases hc with hc | hc
        · exact absurd hc (by simp [(h a (List.mem_cons_self a t)).1])
        · exact absurd hc (by simp [(h a (List.mem_cons_self a t)).2])
    · rw [if_neg hc]
      simp only [Bool.or_eq_true, not_or, Bool.not_eq_true] at hc
      rw [ih (i + 1)]
      constructor
      · intro h d hd
        rcases List.mem_cons.mp hd with hd | hd
        · subst hd; exact hc
        · exact h d hd
      · intro h d hd
        exact h d (List.mem_cons_of_mem a hd)

theorem firstViolation_some_spec (mW mH : Nat) :
    ∀ (l : List (Nat × Nat)) (i j : Nat),
      firstViolation mW mH l i = some j →
      i < j ∧ ∃ d, l.get? (j - i - 1) = some d ∧
        (tolViolB mW d.1 = true ∨ tolViolB mH d.2 = true) := by
  intro l
  induction l with
  | nil => intro i j h; cases h
  | cons a t ih =>
    intro i j h
    rw [firstViolation] at h
    by_cases hc : (tolViolB mW a.1 || tolViolB mH a.2) = true
    · rw [if_pos hc] at h
      injection h with h
      subst h
      refine ⟨by omega, a, ?_, by simpa using hc⟩
      simp
    · rw [if_neg hc] at h
      obtain ⟨hij, d, hd, hviol⟩ := ih (i + 1) j h
      refine ⟨by omega, d, ?_, hviol⟩
      have hidx : j - i - 1 = (j - (i + 1) - 1) + 1 := by omega
      rw [hidx]
      simpa using hd

/-- C4: the GIF dimension audit fails (with the offending frame's 1-based
index) exactly when some frame's width or height exceeds the respective
minimum by more than 10%; frames (100,100),(100,100),(109,100) pass and the
third frame is cropped to 100×100 (scale 1 — a pure crop), while
(100,100),(100,100),(120,100) fail naming frame 3; the mismatch error is
mapped to HTTP 400. -/
theorem C4_dimension_tolerance :
    (∀ dims : List (Nat × Nat), dims ≠ [] → (∀ p ∈ dims, 0 < p.1 ∧ 0 < p.2) →
      (((∃ j, checkDims dims = .error j) ↔
        ∃ p ∈ dims,
          ((p.1 : ℚ) - (minWidth dims : ℚ)) / (minWidth dims : ℚ) > 1 / 10 ∨
          ((p.2 : ℚ) - (minHeight dims : ℚ)) / (minHeight dims : ℚ) > 1 / 10) ∧
       (∀ j, checkDims dims = .error j → 1 ≤ j ∧ ∃ p, dims.get? (j - 1) = some p ∧
         (((p.1 : ℚ) - (minWidth dims : ℚ)) / (minWidth dims : ℚ) > 1 / 10 ∨
          ((p.2 : ℚ) - (minHeight dims : ℚ)) / (minHeight dims : ℚ) > 1 / 10)))) ∧
    checkDims [(100, 100), (100, 100), (109, 100)] = .ok () ∧
    (pipelinePlans [(100, 100), (100, 100), (109, 100)]).map (fun p => (p.outW, p.outH)) =
      [(100, 100), (100, 100), (100, 100)] ∧
    (pipelinePlans [(100, 100), (100, 100), (109, 100)]).map CoverPlan.scale = [1, 1, 1] ∧
    checkDims [(100, 100), (100, 100), (120, 100)] = .error 3 ∧
    (∀ (i w h mw mh : Nat) (wdPct hdPct : String),
      statusCodeOf (GifError.message (.dimensionMismatch i w h mw mh wdPct hdPct)) = 400) := by
  have t100 : tolViolB 100 100 = false := by
    rw [tolViolB, decide_eq_false_iff_not]
    norm_num
  have t109 : tolViolB 100 109 = false := by
    rw [tolViolB, decide_eq_false_iff_not]
    norm_num
  have t120 : tolViolB 100 120 = true := by
    rw [tolViolB, decide_eq_true_eq]
    norm_num
  have hm109 : minWidth [(100, 100), (100, 100), (109, 100)] = 100 := rfl
  have hh109 : minHeight [(100, 100), (100, 100), (109, 100)] = 100 := rfl
  have hmax109 : max ((100 : ℚ) / 109) ((100 : ℚ) / 100) = 1 := by
    rw [show ((100 : ℚ) / 100) = 1 by norm_num]
    exact max_eq_right (by norm_num)
  refine ⟨fun dims hne hpos => ?_,
    by simp [checkDims_eq, hm109, hh109, firstViolation, t100, t109],
    by rfl,
    by
      simp [pipelinePlans, hm109, hh109, processImageFrame, identityPlan, coverResize,
        hmax109]
      norm_num,
    by simp [checkDims_eq, firstViolation, t100, t120,
      show minWidth [(100, 100), (100, 100), (120, 100)] = 100 from rfl,
      show minHeight [(100, 100), (100, 100), (120, 100)] = 100 from rfl],
    statusCodeOf_dimensionMismatch⟩
  have hWpos := minWidth_pos dims hne hpos
  have hHpos := minHeight_pos dims hne hpos
  have herr : ∀ j, checkDims dims = .error j →
      firstViolation (minWidth dims) (minHeight dims) dims 0 = some j := by
    intro j hj
    rw [checkDims_eq] at hj
    by_cases ha : dims.any (fun d => d.1 != minWidth dims || d.2 != minHeight dims) = true
    · rw [if_pos ha] at hj
      cases hfv : firstViolation (minWidth dims) (minHeight dims) dims 0 with
      | none => rw [hfv] at hj; cases hj
      | some j' =>
        rw [hfv] at hj
        injection hj with hj
        rw [hj]
    · rw [if_neg ha] at hj; cases hj
  constructor
  · constructor
    · rintro ⟨j, hj⟩
      obtain ⟨hij, d, hd, hviol⟩ := firstViolation_some_spec _ _ dims 0 j (herr j hj)
      refine ⟨d, List.get?_mem hd, ?_⟩
      rcases hviol with h | h
      · exact Or.inl ((tolViolB_iff _ _ hWpos).mp h)
      · exact Or.inr ((tolViolB_iff _ _ hHpos).mp h)
    · rintro ⟨p, hp, hviol⟩
      have hvB : tolViolB (minWidth dims) p.1 = true ∨
          tolViolB (minHeight dims) p.2 = true := by
        rcases hviol with h | h
        · exact Or.inl ((tolViolB_iff _ _ hWpos).mpr h)
        · exact Or.inr ((tolViolB_iff _ _ hHpos).mpr h)
      cases hfv : firstViolation (minWidth dims) (minHeight dims) dims 0 with
      | none =>
        have hall := (firstViolation_none_iff _ _ dims 0).mp hfv p hp
        rcases hvB with h | h
        · rw [hall.1] at h; cases h
        · rw [hall.2] at h; cases h
      | some j =>
        have hne2 : p.1 ≠ minWidth dims ∨ p.2 ≠ minHeight dims := by
          rcases hviol with h | h
          · left
            have hmQ : (0 : ℚ) < (minWidth dims : ℚ) := by exact_mod_cast hWpos
            rw [gt_iff_lt, lt_div_iff₀ hmQ] at h
            have h2 : (minWidth dims : ℚ) < (p.1 : ℚ) := by linarith
            have h3 : minWidth dims < p.1 := by exact_mod_cast h2
            omega
          · right
            have hmQ : (0 : ℚ) < (minHeight dims : ℚ) := by exact_mod_cast hHpos
            rw [gt_iff_lt, lt_div_iff₀ hmQ] at h
            have h2 : (minHeight dims : ℚ) < (p.2 : ℚ) := by linarith
            have h3 : minHeight dims < p.2 := by exact_mod_cast h2
            omega
        have hany : dims.any (fun d => d.1 != minWidth dims || d.2 != minHeight dims) =
            true := by
          rw [List.any_eq_true]
          exact ⟨p, hp, by rcases hne2 with h | h <;> simp [h]⟩
        exact ⟨j, by rw [checkDims_eq, if_pos hany, hfv]⟩
  · intro j hj
    obtain ⟨hij, d, hd, hviol⟩ := firstViolation_some_spec _ _ dims 0 j (herr j hj)
    have hidx : j - 0 - 1 = j - 1 := by omega
    rw [hidx] at hd
    refine ⟨by omega, d, hd, ?_⟩
    rcases hviol with h | h
    · exact Or.inl ((tolViolB_iff _ _ hWpos).mp h)
    · exact Or.inr ((tolViolB_iff _ _ hHpos).mp h)

/-- Witness for C4 at concrete inputs: frames (100,100),(120,100) (20% width
difference) are rejected by the audit. -/
theorem C4_dimension_tolerance_witness :
    ∃ j, checkDims [(100, 100), (120, 100)] = .error j := by
  refine ((C4_dimension_tolerance.1 [(100, 100), (120, 100)] (by decide)
    (by decide)).1).mpr ?_
  refine ⟨(120, 100), by decide, Or.inl ?_⟩
  rw [show minWidth [(100, 100), (120, 100)] = 100 from rfl]
  norm_num

/-! ## Crop-normalization lemmas -/

theorem natCast_div_le_one {m w : Nat} (h : m ≤ w) (hw : 0 < w) :
    ((m : ℚ)) / (w : ℚ) ≤ 1 := by
  rw [div_le_one (by exact_mod_cast hw)]
  exact_mod_cast h

theorem natCast_div_eq_one_iff {m w : Nat} (hw : 0 < w) :
    ((m : ℚ)) / (w : ℚ) = 1 ↔ m = w := by
  rw [div_eq_one_iff_eq (by positivity)]
  exact_mod_cast Iff.rfl

/-- C6 counterexample: frames (100,100),(105,105) pass the 10% tolerance, and
the second frame is normalized by a cover-fit resize with scale 100/105 ≠ 1 —
its pixels are scaled down, not taken unscaled by a pure crop as the claim
states. -/
theorem C6_crop_counterexample :
    checkDims [(100, 100), (105, 105)] = .ok () ∧
    (pipelinePlans [(100, 100), (105, 105)]).map CoverPlan.scale = [1, 100 / 105] ∧
    ((100 : ℚ) / 105) ≠ 1 := by
  have t105 : tolViolB 100 105 = false := by
    rw [tolViolB, decide_eq_false_iff_not]
    norm_num
  have t100 : tolViolB 100 100 = false := by
    rw [tolViolB, decide_eq_false_iff_not]
    norm_num
  refine ⟨?_, ?_, by norm_num⟩
  · simp [checkDims_eq, firstViolation, t100, t105,
      show minWidth [(100, 100), (105, 105)] = 100 from rfl,
      show minHeight [(100, 100), (105, 105)] = 100 from rfl]
  · simp [pipelinePlans, processImageFrame, identityPlan, coverResize,
      show minWidth [(100, 100), (105, 105)] = 100 from rfl,
      show minHeight [(100, 100), (105, 105)] = 100 from rfl]

/-- C6 amended: every frame (whether or not its dimensions differ from the
minimum) leaves the normalization stage with exactly minW×minH pixels; a
differing frame is resized with a cover fit — scaled by
`max(minW/w, minH/h)` to fill the target box, then cropped anchored to the
left horizontally and centered vertically — and the pixels are taken
unscaled (scale = 1) exactly when the frame already matches the minimum in at
least one dimension. -/
theorem C6_crop_normalization_amended :
    ∀ (dims : List (Nat × Nat)) (i : Nat) (d : Nat × Nat) (plan : CoverPlan),
      dims ≠ [] → (∀ p ∈ dims, 0 < p.1 ∧ 0 < p.2) → checkDims dims = .ok () →
      dims.get? i = some d → (pipelinePlans dims).get? i = some plan →
      plan.outW = minWidth dims ∧ plan.outH = minHeight dims ∧ plan.cropX = 0 ∧
      plan.cropY = (plan.scale * (d.2 : ℚ) - (minHeight dims : ℚ)) / 2 ∧
      (plan.scale = 1 ↔ (d.1 = minWidth dims ∨ d.2 = minHeight dims)) := by
  intro dims i d plan hne hpos hchk hd hplan
  have hmem : d ∈ dims := List.get?_mem hd
  have hW : minWidth dims ≤ d.1 := minWidth_le dims d hmem
  have hH : minHeight dims ≤ d.2 := minHeight_le dims d hmem
  have hd1 : 0 < d.1 := (hpos d hmem).1
  have hd2 : 0 < d.2 := (hpos d hmem).2
  rw [pipelinePlans, List.get?_map, hd] at hplan
  injection hplan with hplan
  have hplan2 : (if d.1 ≠ minWidth dims ∨ d.2 ≠ minHeight dims then
      processImageFrame d (some (minWidth dims, minHeight dims))
    else processImageFrame d none) = plan := hplan
  clear hplan
  by_cases hdm : d.1 ≠ minWidth dims ∨ d.2 ≠ minHeight dims
  · rw [if_pos hdm, processImageFrame, if_pos hdm] at hplan2
    rw [← hplan2]
    refine ⟨rfl, rfl, rfl, rfl, ?_⟩
    show max ((minWidth dims : ℚ) / (d.1 : ℚ)) ((minHeight dims : ℚ) / (d.2 : ℚ)) = 1 ↔ _
    have hA : (minWidth dims : ℚ) / (d.1 : ℚ) ≤ 1 := natCast_div_le_one hW hd1
    have hB : (minHeight dims : ℚ) / (d.2 : ℚ) ≤ 1 := natCast_div_le_one hH hd2
    constructor
    · intro hmax
      rcases max_choice ((minWidth dims : ℚ) / (d.1 : ℚ))
          ((minHeight dims : ℚ) / (d.2 : ℚ)) with hc | hc
      · rw [hc] at hmax
        exact Or.inl ((natCast_div_eq_one_iff hd1).mp hmax).symm
      · rw [hc] at hmax
        exact Or.inr ((natCast_div_eq_one_iff hd2).mp hmax).symm
    · intro hor
      rcases hor with h | h
      · have h1 : (minWidth dims : ℚ) / (d.1 : ℚ) = 1 :=
          (natCast_div_eq_one_iff hd1).mpr h.symm
        exact le_antisymm (max_le hA hB) (h1 ▸ le_max_left _ _)
      · have h1 : (minHeight dims : ℚ) / (d.2 : ℚ) = 1 :=
          (natCast_div_eq_one_iff hd2).mpr h.symm
        exact le_antisymm (max_le hA hB) (h1 ▸ le_max_right _ _)
  · push_neg at hdm
    obtain ⟨he1, he2⟩ := hdm
    rw [if_neg (by simp [he1, he2]), processImageFrame] at hplan2
    rw [← hplan2, identityPlan]
    refine ⟨he1, he2, rfl, ?_, ?_⟩
    · show (0 : ℚ) = (1 * (d.2 : ℚ) - (minHeight dims : ℚ)) / 2
      rw [he2]
      ring
    · simp [he1]

/-- Witness for C6 amended at frames (100,100),(109,100): the second frame's
plan is a pure crop (scale 1, since its height already matches) to 100×100,
left-anchored and vertically centered. -/
theorem C6_crop_normalization_amended_witness :
    (coverResize 109 100 100 100).outW = minWidth [(100, 100), (109, 100)] ∧
    (coverResize 109 100 100 100).outH = minHeight [(100, 100), (109, 100)] ∧
    (coverResize 109 100 100 100).cropX = 0 ∧
    (coverResize 109 100 100 100).cropY =
      ((coverResize 109 100 100 100).scale * ((100 : Nat) : ℚ) -
        (minHeight [(100, 100), (109, 100)] : ℚ)) / 2 ∧
    ((coverResize 109 100 100 100).scale = 1 ↔
      ((109 : Nat) = minWidth [(100, 100), (109, 100)] ∨
        (100 : Nat) = minHeight [(100, 100), (109, 100)])) :=
  C6_crop_normalization_amended [(100, 100), (109, 100)] 1 (109, 100)
    (coverResize 109 100 100 100) (by decide) (by decide)
    (by
      have t100 : tolViolB 100 100 = false := by
        rw [tolViolB, decide_eq_false_iff_not]
        norm_num
      have t109 : tolViolB 100 109 = false := by
        rw [tolViolB, decide_eq_false_iff_not]
        norm_num
      simp [checkDims_eq, firstViolation, t100, t109,
        show minWidth [(100, 100), (109, 100)] = 100 from rfl,
        show minHeight [(100, 100), (109, 100)] = 100 from rfl])
    rfl rfl
